import Mathlib

/-!
Verification development for the AMD Triton integer range analysis
(third_party/amd/lib/Analysis/RangeAnalysis.cpp).

The development shallowly embeds the functions of that file over a model of
LLVM arbitrary-precision integers (APInt, as width-tagged bit patterns) and of
MLIR constant integer ranges (four-field records of unsigned and signed
bounds).  Functions that live in the source file are translated from the
source; operations of the range lattice itself (ConstantIntRanges
construction, union, intersection, predicate evaluation) are supplied by the
host compiler framework and are modelled from the specification, as marked in
their doc comments.
-/

/-- A fixed-width machine integer: a bit pattern of the given width.  The
pattern is kept as a natural number; all operations reduce it modulo
2 ^ width. -/
structure APInt where
  width : Nat
  val : Nat
deriving DecidableEq

/-- The unsigned value of the bit pattern. -/
def APInt.uval (a : APInt) : Nat := a.val % 2 ^ a.width

/-- The two's-complement signed value of the bit pattern. -/
def APInt.sval (a : APInt) : Int :=
  if 2 * a.uval < 2 ^ a.width then (a.uval : Int) else (a.uval : Int) - 2 ^ a.width

/-- Build an APInt of width w from a natural number (truncating). -/
def APInt.ofNat (w n : Nat) : APInt := ⟨w, n % 2 ^ w⟩

/-- Build an APInt of width w from an integer (truncating two's complement). -/
def APInt.ofInt (w : Nat) (k : Int) : APInt := ⟨w, (k % (2 : Int) ^ w).toNat⟩

/-- APInt::getZero. -/
def APInt.getZero (w : Nat) : APInt := ⟨w, 0⟩

/-- APInt::getMinValue: the minimum unsigned value (zero). -/
def APInt.getMinValue (w : Nat) : APInt := ⟨w, 0⟩

/-- APInt::getMaxValue: the maximum unsigned value (all ones). -/
def APInt.getMaxValue (w : Nat) : APInt := ⟨w, 2 ^ w - 1⟩

/-- APInt::getSignedMinValue: bit pattern 100...0. -/
def APInt.getSignedMinValue (w : Nat) : APInt := APInt.ofNat w (2 ^ (w - 1))

/-- APInt::getSignedMaxValue: bit pattern 011...1. -/
def APInt.getSignedMaxValue (w : Nat) : APInt := APInt.ofNat w (2 ^ (w - 1) - 1)

/-- APInt addition of one (modular, as in C++ apVal + 1). -/
def APInt.add1 (a : APInt) : APInt := ⟨a.width, (a.uval + 1) % 2 ^ a.width⟩

/-- APInt subtraction of one (modular, as in C++ apVal - 1). -/
def APInt.sub1 (a : APInt) : APInt := ⟨a.width, (a.uval + (2 ^ a.width - 1)) % 2 ^ a.width⟩

/-- APInt::sext: sign extension to a (no smaller) width. -/
def APInt.sext (a : APInt) (w : Nat) : APInt := APInt.ofInt w a.sval

/-- MLIR ConstantIntRanges: four bounds (unsigned min/max, signed min/max),
exactly the four accessors the source file reads (umin, umax, smin, smax). -/
structure ConstantIntRanges where
  umin : APInt
  umax : APInt
  smin : APInt
  smax : APInt
deriving DecidableEq

/-- Modelled from the spec: the width-zero degenerate range, the sentinel that
"isEmpty" recognises as meaning no information (spec section 4.1). -/
def ConstantIntRanges.empty : ConstantIntRanges :=
  ⟨⟨0, 0⟩, ⟨0, 0⟩, ⟨0, 0⟩, ⟨0, 0⟩⟩

/-- Modelled from the spec: maxRange(bitWidth) is the full representable
interval for the bit width, in both signed and unsigned views. -/
def ConstantIntRanges.maxRange (w : Nat) : ConstantIntRanges :=
  ⟨APInt.getMinValue w, APInt.getMaxValue w,
   APInt.getSignedMinValue w, APInt.getSignedMaxValue w⟩

/-- Modelled from the spec: constant(v) is the degenerate interval [v, v]. -/
def ConstantIntRanges.constRange (v : APInt) : ConstantIntRanges := ⟨v, v, v, v⟩

/-- Modelled from the spec: a range given by signed bounds; the unsigned view
is the same pair when the two bounds have equal sign, and the full unsigned
interval when the signs differ (the set wraps around in unsigned order). -/
def ConstantIntRanges.fromSigned (lo hi : APInt) : ConstantIntRanges :=
  if (0 ≤ lo.sval) = (0 ≤ hi.sval) then
    ⟨(if lo.uval ≤ hi.uval then lo else hi), (if lo.uval ≤ hi.uval then hi else lo), lo, hi⟩
  else
    ⟨APInt.getMinValue lo.width, APInt.getMaxValue lo.width, lo, hi⟩

/-- Modelled from the spec: a range given by unsigned bounds; the signed view
is the same pair when the two bounds have equal sign bit, and the full signed
interval when the sign bits differ. -/
def ConstantIntRanges.fromUnsigned (lo hi : APInt) : ConstantIntRanges :=
  if (0 ≤ lo.sval) = (0 ≤ hi.sval) then
    ⟨lo, hi, (if lo.sval ≤ hi.sval then lo else hi), (if lo.sval ≤ hi.sval then hi else lo)⟩
  else
    ⟨lo, hi, APInt.getSignedMinValue lo.width, APInt.getSignedMaxValue lo.width⟩

/-- Modelled from the spec: range(min, max, isSigned) interprets the two
bounds in the requested signedness. -/
def ConstantIntRanges.range (lo hi : APInt) (isSigned : Bool) : ConstantIntRanges :=
  if isSigned then ConstantIntRanges.fromSigned lo hi else ConstantIntRanges.fromUnsigned lo hi

/-- Modelled from the spec: intersection narrows to the overlap in both the
unsigned and signed views; an empty overlap yields the width-zero empty
sentinel (spec sections 3 and 4.1). -/
def ConstantIntRanges.intersection (a b : ConstantIntRanges) : ConstantIntRanges :=
  let uminI := if b.umin.uval < a.umin.uval then a.umin else b.umin
  let umaxI := if a.umax.uval < b.umax.uval then a.umax else b.umax
  let sminI := if b.smin.sval < a.smin.sval then a.smin else b.smin
  let smaxI := if a.smax.sval < b.smax.sval then a.smax else b.smax
  if uminI.uval ≤ umaxI.uval ∧ sminI.sval ≤ smaxI.sval then ⟨uminI, umaxI, sminI, smaxI⟩
  else ConstantIntRanges.empty

/-- Modelled from the spec: union widens to cover both operands in both
views. -/
def ConstantIntRanges.rangeUnion (a b : ConstantIntRanges) : ConstantIntRanges :=
  ⟨(if a.umin.uval ≤ b.umin.uval then a.umin else b.umin),
   (if b.umax.uval ≤ a.umax.uval then a.umax else b.umax),
   (if a.smin.sval ≤ b.smin.sval then a.smin else b.smin),
   (if b.smax.sval ≤ a.smax.sval then a.smax else b.smax)⟩

/-- From the source (isEmptyInitializedRange): a range is the empty sentinel
iff any of its four bounds has bit width zero. -/
def isEmptyInitializedRange (rv : ConstantIntRanges) : Bool :=
  decide (rv.umin.width = 0) || decide (rv.umax.width = 0) ||
  decide (rv.smin.width = 0) || decide (rv.smax.width = 0)

/-- arith::CmpIPredicate. -/
inductive CmpIPredicate where
  | eq | ne | slt | sle | sgt | sge | ult | ule | ugt | uge
deriving DecidableEq

/-- An SSA value is identified by a natural number. -/
abbrev SSAValue := Nat

/-- arith::CmpIOp: a predicate and its two operand values. -/
structure CmpIOp where
  predicate : CmpIPredicate
  lhs : SSAValue
  rhs : SSAValue
deriving DecidableEq

/-- The defining operation of an assume condition: either a comparison
operation or some other operation with an operand list. -/
inductive CondOp where
  | cmp (op : CmpIOp)
  | other (operands : List SSAValue)
deriving DecidableEq

/-- The operand list of a condition operation. -/
def CondOp.operands : CondOp → List SSAValue
  | .cmp c => [c.lhs, c.rhs]
  | .other ops => ops

/-- From the source (static maybeGetAssumedRange): derive a range for the
anchor value from one assumption operation.  A non-comparison operation is
rejected (with a remark); the predicates ult/ule/ugt/uge select unsigned
bounds, all others signed; the side opposite the anchor must be a known
constant; the nine interpretable predicates produce the interval of the
source's switch, with apVal plus/minus one computed in width-w modular
arithmetic; the predicate ne is rejected (with a remark). -/
def maybeGetAssumedRangeSingle (assumption : CondOp) (anchor : SSAValue)
    (constVal : SSAValue → Option Int) (width : Nat) : Option ConstantIntRanges :=
  match assumption with
  | .other _ => none
  | .cmp c =>
    let isSigned : Bool :=
      match c.predicate with
      | .uge | .ugt | .ule | .ult => false
      | _ => true
    let anchorIsLhs : Bool := c.lhs = anchor
    match constVal (if anchorIsLhs then c.rhs else c.lhs) with
    | none => none
    | some k =>
      let apVal := APInt.ofInt width k
      let mn := if isSigned then APInt.getSignedMinValue width else APInt.getMinValue width
      let mx := if isSigned then APInt.getSignedMaxValue width else APInt.getMaxValue width
      match c.predicate with
      | .eq => some (ConstantIntRanges.constRange apVal)
      | .uge | .sge =>
        some (if anchorIsLhs then ConstantIntRanges.range apVal mx isSigned
              else ConstantIntRanges.range mn apVal isSigned)
      | .ugt | .sgt =>
        some (if anchorIsLhs then ConstantIntRanges.range apVal.add1 mx isSigned
              else ConstantIntRanges.range mn apVal.sub1 isSigned)
      | .ule | .sle =>
        some (if anchorIsLhs then ConstantIntRanges.range mn apVal isSigned
              else ConstantIntRanges.range apVal mx isSigned)
      | .ult | .slt =>
        some (if anchorIsLhs then ConstantIntRanges.range mn apVal.sub1 isSigned
              else ConstantIntRanges.range apVal.add1 mx isSigned)
      | .ne => none

/-- From the source (TritonIntegerRangeAnalysis::maybeGetAssumedRange): look
up all assumptions registered against the anchor; if none, return nothing;
otherwise start from maxRange for the anchor's bit width and intersect in the
range derived from each assumption that yields one. -/
def TritonIntegerRangeAnalysis.maybeGetAssumedRange (assumptions : List CondOp)
    (anchor : SSAValue) (constVal : SSAValue → Option Int) (width : Nat) :
    Option ConstantIntRanges :=
  if assumptions.isEmpty then none
  else
    some (assumptions.foldl
      (fun acc assumption =>
        match maybeGetAssumedRangeSingle assumption anchor constVal width with
        | some r => acc.intersection r
        | none => acc)
      (ConstantIntRanges.maxRange width))

/-- Modelled from the spec: signed ceiling division (llvm::divideCeilSigned),
the exact ceiling of the rational quotient. -/
def divideCeilSigned (n d : Int) : Int := -((-n).fdiv d)

/-- A loop-like operation, with its single induction variable's presence
recorded and its lower bound, upper bound and step already resolved to signed
integer values (literal, lattice-derived or default, as the source's
getLoopRangeInfo resolves them). -/
structure Loop where
  hasIV : Bool
  lower : Int
  upper : Int
  step : Int
deriving DecidableEq

/-- From the source (TritonIntegerRangeAnalysis::maybeGetTripCount): no
single induction variable means no trip count; a negative step swaps the
resolved lower and upper bounds (the step itself is kept); a zero step is
replaced by one; if max is (signed) at least min the trip count is the
signed ceiling division of their difference by the step, else there is no
trip count. -/
def TritonIntegerRangeAnalysis.maybeGetTripCount (loop : Loop) : Option Int :=
  if loop.hasIV = false then none
  else
    let p := if loop.step < 0 then (loop.upper, loop.lower) else (loop.lower, loop.upper)
    let stepVal := if loop.step = 0 then 1 else loop.step
    if p.1 ≤ p.2 then some (divideCeilSigned (p.2 - p.1) stepVal) else none

/-- From the source: kDefaultMaxTripCount. -/
def kDefaultMaxTripCount : Int := 1024

/-- From the source: kDefaultMaxPrograms (2 shifted left by 15). -/
def kDefaultMaxPrograms : Int := 2 ^ 16

/-- From the source (getEnclosingLoops): walk the chain of parent operations
outward, keeping those that are loop-like.  The chain is modelled as the list
of parent operations, each either a loop or not. -/
def getEnclosingLoops (parents : List (Option Loop)) : List Loop :=
  parents.filterMap id

/-- From the source (TritonIntegerRangeAnalysis::getTotalLoopTripCount): fold
multiplication, starting from one, over the loop itself followed by its
enclosing loops, taking each loop's trip count or the default-plus-one
sentinel when unknown. -/
def TritonIntegerRangeAnalysis.getTotalLoopTripCount (loop : Loop)
    (parents : List (Option Loop)) : Int :=
  (loop :: getEnclosingLoops parents).foldl
    (fun accum l =>
      accum * (TritonIntegerRangeAnalysis.maybeGetTripCount l).getD (kDefaultMaxTripCount + 1))
    1

/-- From the source (inferResultRangesMaxNonNegSigned): the range assigned to
each result of a histogram-count operation of storage bit width w, built by
fromSigned from the zero pattern and the all-ones pattern (APInt::getMaxValue),
each sign-extended to the same width. -/
def inferResultRangesMaxNonNegSigned (w : Nat) : ConstantIntRanges :=
  ConstantIntRanges.fromSigned ((APInt.getZero w).sext w) ((APInt.getMaxValue w).sext w)

/-- An IntegerValueRange lattice value: uninitialized or a constant range. -/
abbrev IntegerValueRange := Option ConstantIntRanges

/-- Modelled from the spec: the join of two lattice values — an uninitialized
side is absorbed, two ranges widen by union. -/
def IntegerValueRange.joinIVR (a b : IntegerValueRange) : IntegerValueRange :=
  match a, b with
  | none, b => b
  | a, none => a
  | some x, some y => some (x.rangeUnion y)

/-- Modelled from the spec: joining a new value into a lattice cell returns
the new cell content and whether the cell changed. -/
def latticeJoin (cell incoming : IntegerValueRange) : IntegerValueRange × Bool :=
  let j := IntegerValueRange.joinIVR cell incoming
  (j, decide (j ≠ cell))

/-- The per-loop bookkeeping of the analysis: the recorded trip-count bound
(loopTripCounts[loop]) and one visit counter (loopVisits[loop, cell]) for the
lattice cell under consideration. -/
structure LoopState where
  tripCount : Int
  visits : Int
deriving DecidableEq

/-- From the source (std::numeric_limits of int64_t, max): the initial
recorded trip count. -/
def int64Max : Int := 2 ^ 63 - 1

/-- From the source (visitRegionSuccessors, trip-count initialization): on
first sight of a loop the recorded bound is the int64 maximum and the visit
counters are zero. -/
def loopStateInit : LoopState := ⟨int64Max, 0⟩

/-- From the source (visitRegionSuccessors, lines recording the estimate):
the recorded trip count is replaced by a new estimate only when the estimate
is smaller (running minimum). -/
def recordTripCount (st : LoopState) (estimate : Int) : LoopState :=
  if estimate < st.tripCount then { st with tripCount := estimate } else st

/-- From the source (visitRegionSuccessors, the loop over zipped operand and
argument-lattice pairs): processing one (operand, target-cell) pair.  When
the pair is attributable to a loop whose visit counter has reached the
recorded trip count, nothing happens; otherwise the cell is joined with the
operand's max-range when the recorded trip count exceeds kDefaultMaxTripCount,
and with the operand's own lattice value otherwise; in either case the visit
counter is incremented exactly when the join changed the cell. -/
def visitPairStep (hasLoop : Bool) (st : LoopState) (cell operCell : IntegerValueRange)
    (operWidth : Nat) : LoopState × IntegerValueRange :=
  if hasLoop = true ∧ st.tripCount ≤ st.visits then (st, cell)
  else
    let joined :=
      if hasLoop = true ∧ kDefaultMaxTripCount < st.tripCount then
        latticeJoin cell (some (ConstantIntRanges.maxRange operWidth))
      else
        latticeJoin cell operCell
    let stNext := if hasLoop = true ∧ joined.2 = true then
        { st with visits := st.visits + 1 } else st
    (stNext, joined.1)

/-- From the source (TritonIntegerRangeAnalysis::collectAssumptions): walk
the assume operations; for each, take the defining operation of its condition
and index every operand of that operation (skipping compile-time constants
when filtering).  The C++ dereferences the defining operation without a null
check, so a condition with no defining operation (a block argument) is a null
dereference; that outcome is modelled as none. -/
def TritonIntegerRangeAnalysis.collectAssumptions (assumeConds : List SSAValue)
    (definingOp : SSAValue → Option CondOp) (filterConstants : Bool)
    (constVal : SSAValue → Option Int) : Option (List (SSAValue × CondOp)) :=
  assumeConds.foldl
    (fun acc cond =>
      match acc with
      | none => none
      | some entries =>
        match definingOp cond with
        | none => none
        | some assump =>
          some (entries ++
            (assump.operands.filter
              (fun operand => !(filterConstants && (constVal operand).isSome))).map
              (fun operand => (operand, assump))))
    (some [])

/-- A lattice cell as the folding step sees it: absent from the solver,
present but uninitialized, or holding a range. -/
inductive LatticeCell where
  | missing
  | uninit
  | init (r : ConstantIntRanges)
deriving DecidableEq

/-- From the source (collectRanges, per value): a missing or uninitialized
cell, or one holding the empty sentinel, contributes no range. -/
def collectRange (c : LatticeCell) : Option ConstantIntRanges :=
  match c with
  | .missing => none
  | .uninit => none
  | .init r => if isEmptyInitializedRange r then none else some r

/-- The inverse of a comparison predicate (used to decide definite falsity). -/
def CmpIPredicate.invert : CmpIPredicate → CmpIPredicate
  | .eq => .ne
  | .ne => .eq
  | .slt => .sge
  | .sle => .sgt
  | .sgt => .sle
  | .sge => .slt
  | .ult => .uge
  | .ule => .ugt
  | .ugt => .ule
  | .uge => .ult

/-- Modelled from the spec: the predicate holds for every pair of values
drawn from the two ranges (definite truth, decided on the bounds). -/
def definitelyTrue (pred : CmpIPredicate) (a b : ConstantIntRanges) : Bool :=
  match pred with
  | .eq => decide (a.umin.uval = a.umax.uval ∧ b.umin.uval = b.umax.uval ∧
      a.umin.uval = b.umin.uval)
  | .ne => decide (a.umax.uval < b.umin.uval ∨ b.umax.uval < a.umin.uval)
  | .slt => decide (a.smax.sval < b.smin.sval)
  | .sle => decide (a.smax.sval ≤ b.smin.sval)
  | .sgt => decide (b.smax.sval < a.smin.sval)
  | .sge => decide (b.smax.sval ≤ a.smin.sval)
  | .ult => decide (a.umax.uval < b.umin.uval)
  | .ule => decide (a.umax.uval ≤ b.umin.uval)
  | .ugt => decide (b.umax.uval < a.umin.uval)
  | .uge => decide (b.umax.uval ≤ a.umin.uval)

/-- Modelled from the spec: predicate evaluation over two ranges — a definite
boolean when the bounds decide it, unknown otherwise. -/
def evaluatePred (pred : CmpIPredicate) (a b : ConstantIntRanges) : Option Bool :=
  if definitelyTrue pred a b then some true
  else if definitelyTrue pred.invert a b then some false
  else none

/-- From the source (cmpIIsStaticallyTrue): both operand cells must
contribute a range, and the predicate evaluation must produce a definite
true (unknown counts as false via value_or). -/
def cmpIIsStaticallyTrue (pred : CmpIPredicate) (lhsCell rhsCell : LatticeCell) : Bool :=
  match collectRange lhsCell, collectRange rhsCell with
  | some r1, some r2 => (evaluatePred pred r1 r2).getD false
  | _, _ => false

/-- From the source (FoldTrueCmpIOp::matchAndRewrite): the comparison is
replaced exactly when its result type is integer or index, the comparison is
statically true, and the rewrite machinery accepts the substitution; in every
other case the operation is left unchanged. -/
def foldTrueCmpIOp (resultIsIntOrIndex : Bool) (pred : CmpIPredicate)
    (lhsCell rhsCell : LatticeCell) (rewriteAccepts : Bool) : Bool :=
  if resultIsIntOrIndex = true ∧ cmpIIsStaticallyTrue pred lhsCell rhsCell = true then
    if rewriteAccepts = true then true else false
  else false

/-- A one-constant environment for stating per-assumption derivations: value
1 carries the constant k, every other value is non-constant. -/
def constEnv (k : Int) : SSAValue → Option Int := fun v => if v = 1 then some k else none

/-! Arithmetic facts about the APInt model, shared by the claim theorems. -/

theorem APInt.uval_lt (a : APInt) : a.uval < 2 ^ a.width :=
  Nat.mod_lt _ (pow_pos (by norm_num) _)

theorem APInt.width_ofInt (w : Nat) (k : Int) : (APInt.ofInt w k).width = w := rfl

theorem APInt.uval_ofInt (w : Nat) (k : Int) :
    (((APInt.ofInt w k).uval : Nat) : Int) = k % 2 ^ w := by
  have hc : ((2 ^ w : Nat) : Int) = 2 ^ w := by push_cast; ring
  have h0 : (0 : Int) ≤ k % 2 ^ w := Int.emod_nonneg k (by positivity)
  have h1 : k % 2 ^ w < 2 ^ w := Int.emod_lt_of_pos k (by positivity)
  show ((((k % (2 : Int) ^ w).toNat % 2 ^ w : Nat)) : Int) = k % 2 ^ w
  rw [Nat.mod_eq_of_lt (by omega)]
  omega

theorem APInt.sval_of_small (a : APInt) (h : 2 * a.uval < 2 ^ a.width) :
    a.sval = (a.uval : Int) := by
  unfold APInt.sval
  rw [if_pos h]

theorem APInt.sval_of_large (a : APInt) (h : ¬ 2 * a.uval < 2 ^ a.width) :
    a.sval = (a.uval : Int) - 2 ^ a.width := by
  unfold APInt.sval
  rw [if_neg h]

theorem APInt.sval_ofInt (w : Nat) (k : Int) (hlo : -(2 ^ w) ≤ k) (hhi : k < 2 ^ w) :
    (APInt.ofInt (w + 1) k).sval = k := by
  have hc : ((2 ^ (w + 1) : Nat) : Int) = 2 ^ (w + 1) := by push_cast; ring
  have hpow : ((2 : Int)) ^ (w + 1) = 2 * 2 ^ w := by ring
  have hu := APInt.uval_ofInt (w + 1) k
  have hw : (APInt.ofInt (w + 1) k).width = w + 1 := rfl
  have hk : k % (2 : Int) ^ (w + 1) = k ∨ k % (2 : Int) ^ (w + 1) = k + 2 ^ (w + 1) := by
    rcases le_or_lt 0 k with h | h
    · left
      exact Int.emod_eq_of_lt h (by omega)
    · right
      have heq : (k + (2 : Int) ^ (w + 1)) % 2 ^ (w + 1) = k % 2 ^ (w + 1) := by
        have h2 := @Int.add_mul_emod_self_left k ((2 : Int) ^ (w + 1)) 1
        simp only [mul_one] at h2
        exact h2
      rw [← heq, Int.emod_eq_of_lt (by omega) (by omega)]
  by_cases hcase : 2 * (APInt.ofInt (w + 1) k).uval < 2 ^ (APInt.ofInt (w + 1) k).width
  · rw [APInt.sval_of_small _ hcase]
    rw [hw] at hcase
    rcases hk with hk | hk <;> omega
  · rw [APInt.sval_of_large _ hcase, hw]
    rw [hw] at hcase
    rcases hk with hk | hk <;> omega

theorem APInt.ofNat_eq_ofInt (w n : Nat) : APInt.ofNat w n = APInt.ofInt w n := by
  unfold APInt.ofNat APInt.ofInt
  congr 1
  have hc : ((2 ^ w : Nat) : Int) = 2 ^ w := by push_cast; ring
  have h0 : (0 : Int) ≤ (n : Int) % 2 ^ w := Int.emod_nonneg _ (by positivity)
  have h1 : (n : Int) % 2 ^ w < 2 ^ w := Int.emod_lt_of_pos _ (by positivity)
  have h2 : ((n % 2 ^ w : Nat) : Int) = (n : Int) % 2 ^ w := by
    push_cast
    omega
  omega

theorem APInt.uval_getMinValue (w : Nat) : (APInt.getMinValue w).uval = 0 := by
  unfold APInt.getMinValue APInt.uval
  simp

theorem APInt.sval_getMinValue (w : Nat) : (APInt.getMinValue w).sval = 0 := by
  rw [APInt.sval_of_small]
  · rw [APInt.uval_getMinValue]
    rfl
  · rw [APInt.uval_getMinValue]
    positivity

theorem APInt.sval_getZero (w : Nat) : (APInt.getZero w).sval = 0 :=
  APInt.sval_getMinValue w

theorem APInt.uval_getMaxValue (w : Nat) : ((APInt.getMaxValue w).uval : Int) = 2 ^ w - 1 := by
  unfold APInt.getMaxValue APInt.uval
  have hp : 0 < 2 ^ w := pow_pos (by norm_num) w
  have h2 : (2 ^ w - 1) % 2 ^ w = 2 ^ w - 1 := Nat.mod_eq_of_lt (by omega)
  have hc : ((2 ^ w : Nat) : Int) = 2 ^ w := by push_cast; ring
  simp only [h2]
  omega


theorem APInt.ofInt_congr (w : Nat) (j k : Int) (h : j % 2 ^ w = k % 2 ^ w) :
    APInt.ofInt w j = APInt.ofInt w k := by
  unfold APInt.ofInt
  rw [h]

theorem APInt.neg_emod_two_pow (w : Nat) (k : Int) :
    (-(2 ^ w) + k) % 2 ^ (w + 1) = (2 ^ w + k) % 2 ^ (w + 1) := by
  have hpow : ((2 : Int)) ^ (w + 1) = 2 * 2 ^ w := by ring
  have h2 := @Int.add_mul_emod_self_left (-(2 ^ w) + k) ((2 : Int) ^ (w + 1)) 1
  simp only [mul_one] at h2
  rw [← h2]
  congr 1
  omega

theorem APInt.getMaxValue_eq_ofInt (w : Nat) :
    APInt.getMaxValue (w + 1) = APInt.ofInt (w + 1) (-1) := by
  have hpos : (0 : Int) < 2 ^ (w + 1) := pow_pos (by norm_num) (w + 1)
  have hposn : 0 < 2 ^ (w + 1) := pow_pos (by norm_num) (w + 1)
  unfold APInt.getMaxValue APInt.ofInt
  congr 1
  have hmod : (-1 : Int) % 2 ^ (w + 1) = 2 ^ (w + 1) - 1 := by
    have h2 := @Int.add_mul_emod_self_left (-1 : Int) ((2 : Int) ^ (w + 1)) 1
    simp only [mul_one] at h2
    rw [← h2, Int.emod_eq_of_lt (by omega) (by omega)]
    ring
  rw [hmod]
  have hc : ((2 ^ (w + 1) : Nat) : Int) = 2 ^ (w + 1) := by push_cast; ring
  omega

theorem APInt.sval_getMaxValue (w : Nat) : (APInt.getMaxValue (w + 1)).sval = -1 := by
  rw [APInt.getMaxValue_eq_ofInt]
  have hpos : (0 : Int) < 2 ^ w := pow_pos (by norm_num) w
  exact APInt.sval_ofInt w (-1) (by omega) (by omega)

theorem APInt.getSignedMinValue_eq_ofInt (w : Nat) :
    APInt.getSignedMinValue (w + 1) = APInt.ofInt (w + 1) (-(2 ^ w)) := by
  unfold APInt.getSignedMinValue
  rw [APInt.ofNat_eq_ofInt]
  apply APInt.ofInt_congr
  have hpow : ((2 : Int)) ^ (w + 1) = 2 * 2 ^ w := by ring
  have hpos : (0 : Int) < 2 ^ w := pow_pos (by norm_num) w
  have h1 : (((2 ^ ((w + 1) - 1) : Nat)) : Int) = 2 ^ w := by push_cast; ring
  rw [h1]
  have h2 := APInt.neg_emod_two_pow w 0
  simp only [add_zero] at h2
  rw [← h2]

theorem APInt.sval_getSignedMinValue (w : Nat) :
    (APInt.getSignedMinValue (w + 1)).sval = -(2 ^ w) := by
  rw [APInt.getSignedMinValue_eq_ofInt]
  have hpos : (0 : Int) < 2 ^ w := pow_pos (by norm_num) w
  exact APInt.sval_ofInt w (-(2 ^ w)) (by omega) (by omega)

theorem APInt.getSignedMaxValue_eq_ofInt (w : Nat) :
    APInt.getSignedMaxValue (w + 1) = APInt.ofInt (w + 1) (2 ^ w - 1) := by
  unfold APInt.getSignedMaxValue
  rw [APInt.ofNat_eq_ofInt]
  apply APInt.ofInt_congr
  congr 1
  have hposn : 0 < 2 ^ ((w + 1) - 1) := pow_pos (by norm_num) _
  rw [Nat.cast_sub (by omega : 1 ≤ 2 ^ ((w + 1) - 1))]
  push_cast
  ring

theorem APInt.sval_getSignedMaxValue (w : Nat) :
    (APInt.getSignedMaxValue (w + 1)).sval = 2 ^ w - 1 := by
  rw [APInt.getSignedMaxValue_eq_ofInt]
  have hpos : (0 : Int) < 2 ^ w := pow_pos (by norm_num) w
  exact APInt.sval_ofInt w (2 ^ w - 1) (by omega) (by omega)

theorem APInt.uval_eq_val_ofInt (w : Nat) (k : Int) :
    (APInt.ofInt w k).uval = (APInt.ofInt w k).val := by
  unfold APInt.uval
  apply Nat.mod_eq_of_lt
  show (k % (2 : Int) ^ w).toNat < 2 ^ w
  have hc : ((2 ^ w : Nat) : Int) = 2 ^ w := by push_cast; ring
  have h1 : k % 2 ^ w < 2 ^ w := Int.emod_lt_of_pos _ (by positivity)
  omega

theorem Int.emod_eq_sub_self_of_lt (a n : Int) (h1 : n ≤ a) (h2 : a < 2 * n) :
    a % n = a - n := by
  have h3 := @Int.add_mul_emod_self_left (a - n) n 1
  simp only [mul_one] at h3
  have h4 : a - n + n = a := by ring
  rw [h4] at h3
  rw [h3]
  exact Int.emod_eq_of_lt (by omega) (by omega)

theorem APInt.add1_ofInt (w : Nat) (k : Int) :
    (APInt.ofInt w k).add1 = APInt.ofInt w (k + 1) := by
  unfold APInt.add1
  rw [APInt.uval_eq_val_ofInt]
  show (⟨w, ((k % (2 : Int) ^ w).toNat + 1) % 2 ^ w⟩ : APInt) = APInt.ofInt w (k + 1)
  unfold APInt.ofInt
  congr 1
  have hc : ((2 ^ w : Nat) : Int) = 2 ^ w := by push_cast; ring
  have hpos : (0 : Int) < 2 ^ w := by positivity
  have h0 : (0 : Int) ≤ k % 2 ^ w := Int.emod_nonneg _ (by positivity)
  have h1 : k % 2 ^ w < 2 ^ w := Int.emod_lt_of_pos _ (by positivity)
  have key : (k + 1) % (2 : Int) ^ w = (k % 2 ^ w + 1) % 2 ^ w := by
    conv_rhs => rw [Int.add_emod]
    rw [Int.emod_emod_of_dvd _ dvd_rfl]
    conv_lhs => rw [Int.add_emod]
  rcases lt_or_ge (k % 2 ^ w + 1) ((2 : Int) ^ w) with h | h
  · have hE2 : (k + 1) % (2 : Int) ^ w = k % 2 ^ w + 1 := by
      rw [key]
      exact Int.emod_eq_of_lt (by omega) h
    rw [hE2, Nat.mod_eq_of_lt (by omega)]
    omega
  · have heq : k % 2 ^ w + 1 = 2 ^ w := by omega
    have hE2 : (k + 1) % (2 : Int) ^ w = 0 := by
      rw [key, heq]
      exact Int.emod_self
    rw [hE2]
    have hN : (k % (2 : Int) ^ w).toNat + 1 = 2 ^ w := by omega
    rw [hN, Nat.mod_self]
    simp

theorem APInt.sub1_ofInt (w : Nat) (k : Int) :
    (APInt.ofInt w k).sub1 = APInt.ofInt w (k - 1) := by
  unfold APInt.sub1
  rw [APInt.uval_eq_val_ofInt]
  show (⟨w, ((k % (2 : Int) ^ w).toNat + (2 ^ w - 1)) % 2 ^ w⟩ : APInt) = APInt.ofInt w (k - 1)
  unfold APInt.ofInt
  congr 1
  have hc : ((2 ^ w : Nat) : Int) = 2 ^ w := by push_cast; ring
  have hpos : (0 : Int) < 2 ^ w := by positivity
  have hposn : 0 < 2 ^ w := pow_pos (by norm_num) w
  have h0 : (0 : Int) ≤ k % 2 ^ w := Int.emod_nonneg _ (by positivity)
  have h1 : k % 2 ^ w < 2 ^ w := Int.emod_lt_of_pos _ (by positivity)
  have key : (k - 1) % (2 : Int) ^ w = (k % 2 ^ w - 1) % 2 ^ w := by
    conv_rhs => rw [Int.sub_emod]
    rw [Int.emod_emod_of_dvd _ dvd_rfl]
    conv_lhs => rw [Int.sub_emod]
  rcases lt_or_ge (k % 2 ^ w) 1 with h | h
  · -- the value is zero: wraps to all ones
    have hz : k % 2 ^ w = 0 := by omega
    have hE2 : (k - 1) % (2 : Int) ^ w = 2 ^ w - 1 := by
      rw [key, hz]
      have h3 := @Int.add_mul_emod_self_left ((0 : Int) - 1) ((2 : Int) ^ w) 1
      simp only [mul_one] at h3
      rw [← h3]
      have h4 : (0 : Int) - 1 + 2 ^ w = 2 ^ w - 1 := by ring
      rw [h4]
      exact Int.emod_eq_of_lt (by omega) (by omega)
    rw [hE2]
    have hN : (k % (2 : Int) ^ w).toNat = 0 := by omega
    rw [hN, Nat.zero_add, Nat.mod_eq_of_lt (by omega)]
    omega
  · -- no wrap: plain decrement, but the addition of 2 ^ w - 1 cycles once
    have hE2 : (k - 1) % (2 : Int) ^ w = k % 2 ^ w - 1 := by
      rw [key]
      exact Int.emod_eq_of_lt (by omega) (by omega)
    rw [hE2]
    have hN : (k % (2 : Int) ^ w).toNat + (2 ^ w - 1)
        = ((k % (2 : Int) ^ w).toNat - 1) + 2 ^ w := by omega
    rw [hN, Nat.add_mod_right, Nat.mod_eq_of_lt (by omega)]
    omega

theorem ConstantIntRanges.fromSigned_smin (lo hi : APInt) :
    (ConstantIntRanges.fromSigned lo hi).smin = lo := by
  unfold ConstantIntRanges.fromSigned
  split <;> rfl

theorem ConstantIntRanges.fromSigned_smax (lo hi : APInt) :
    (ConstantIntRanges.fromSigned lo hi).smax = hi := by
  unfold ConstantIntRanges.fromSigned
  split <;> rfl

theorem ConstantIntRanges.fromUnsigned_umin (lo hi : APInt) :
    (ConstantIntRanges.fromUnsigned lo hi).umin = lo := by
  unfold ConstantIntRanges.fromUnsigned
  split <;> rfl

theorem ConstantIntRanges.fromUnsigned_umax (lo hi : APInt) :
    (ConstantIntRanges.fromUnsigned lo hi).umax = hi := by
  unfold ConstantIntRanges.fromUnsigned
  split <;> rfl

theorem ConstantIntRanges.range_signed_smin (lo hi : APInt) :
    (ConstantIntRanges.range lo hi true).smin = lo := by
  unfold ConstantIntRanges.range
  rw [if_pos rfl]
  exact ConstantIntRanges.fromSigned_smin lo hi

theorem ConstantIntRanges.range_signed_smax (lo hi : APInt) :
    (ConstantIntRanges.range lo hi true).smax = hi := by
  unfold ConstantIntRanges.range
  rw [if_pos rfl]
  exact ConstantIntRanges.fromSigned_smax lo hi

theorem ConstantIntRanges.range_unsigned_umin (lo hi : APInt) :
    (ConstantIntRanges.range lo hi false).umin = lo := by
  unfold ConstantIntRanges.range
  simp only [Bool.false_eq_true, if_false]
  exact ConstantIntRanges.fromUnsigned_umin lo hi

theorem ConstantIntRanges.range_unsigned_umax (lo hi : APInt) :
    (ConstantIntRanges.range lo hi false).umax = hi := by
  unfold ConstantIntRanges.range
  simp only [Bool.false_eq_true, if_false]
  exact ConstantIntRanges.fromUnsigned_umax lo hi

/-! Claim theorems. -/

/-- Claim C1: the claim states that a histogram-count operation's inferred
result range is [0, max-signed-for-width].  The source builds the range from
APInt::getMaxValue (the all-ones pattern), so for every storage bit width
w + 1 the signed lower bound is 0 but the signed upper bound is -1 (the
all-ones pattern read as a signed value), which differs from the maximum
signed value 2 ^ w - 1; the code contradicts the claim (and the function's
own name, MaxNonNegSigned). -/
theorem histogramRange_signedMax_isNegOne (w : Nat) :
    (inferResultRangesMaxNonNegSigned (w + 1)).smin.sval = 0 ∧
    (inferResultRangesMaxNonNegSigned (w + 1)).smax.sval = -1 ∧
    (inferResultRangesMaxNonNegSigned (w + 1)).smax.sval ≠ 2 ^ w - 1 := by
  have hpos : (0 : Int) < 2 ^ w := pow_pos (by norm_num) w
  unfold inferResultRangesMaxNonNegSigned APInt.sext
  rw [ConstantIntRanges.fromSigned_smin, ConstantIntRanges.fromSigned_smax]
  rw [APInt.sval_getZero, APInt.sval_getMaxValue]
  refine ⟨?_, ?_, ?_⟩
  · exact APInt.sval_ofInt w 0 (by omega) (by omega)
  · exact APInt.sval_ofInt w (-1) (by omega) (by omega)
  · rw [APInt.sval_ofInt w (-1) (by omega) (by omega)]
    omega

/-- Claim C4 counterexample: the claim asserts that lower = 0, upper = 1024,
step = -1 yields trip count 1024; the source swaps the bounds when the step
is negative without negating the step, the swapped comparison upper >= lower
fails, and no trip count is produced. -/
theorem tripCount_negStep_counterexample :
    TritonIntegerRangeAnalysis.maybeGetTripCount ⟨true, 0, 1024, -1⟩ ≠ some 1024 ∧
    TritonIntegerRangeAnalysis.maybeGetTripCount ⟨true, 0, 1024, -1⟩ = none := by
  refine ⟨?_, ?_⟩ <;> decide

/-- Claim C4 (amended): with a positive step and upper >= lower the trip
count is the exact ceiling of (upper - lower) / step (so 0, 1024, 1 gives
1024), and none when upper < lower; a zero step is treated as step one; a
negative step swaps the bounds while keeping the negative step, so
lower = 0, upper = 1024, step = -1 yields no trip count and the descending
loop lower = 1024, upper = 0, step = -1 yields -1024 (the magnitude of the
forward count but negated); no induction variable yields no trip count. -/
theorem tripCount_spec (lo up st : Int) :
    (TritonIntegerRangeAnalysis.maybeGetTripCount ⟨true, 0, 1024, 1⟩ = some 1024) ∧
    (TritonIntegerRangeAnalysis.maybeGetTripCount ⟨true, 0, 1024, -1⟩ = none) ∧
    (TritonIntegerRangeAnalysis.maybeGetTripCount ⟨true, 1024, 0, -1⟩ = some (-1024)) ∧
    (TritonIntegerRangeAnalysis.maybeGetTripCount ⟨true, lo, up, 0⟩ =
      TritonIntegerRangeAnalysis.maybeGetTripCount ⟨true, lo, up, 1⟩) ∧
    (0 < st → lo ≤ up →
      ∃ r, TritonIntegerRangeAnalysis.maybeGetTripCount ⟨true, lo, up, st⟩ = some r ∧
        st * (r - 1) < up - lo ∧ up - lo ≤ st * r) ∧
    (0 < st → up < lo →
      TritonIntegerRangeAnalysis.maybeGetTripCount ⟨true, lo, up, st⟩ = none) ∧
    (TritonIntegerRangeAnalysis.maybeGetTripCount ⟨false, lo, up, st⟩ = none) := by
  refine ⟨by decide, by decide, by decide, rfl, ?_, ?_, rfl⟩
  · intro hst hle
    have hred : TritonIntegerRangeAnalysis.maybeGetTripCount ⟨true, lo, up, st⟩
        = some (divideCeilSigned (up - lo) st) := by
      show (let p := if st < 0 then (up, lo) else (lo, up);
            let stepVal := if st = 0 then (1 : Int) else st;
            if p.1 ≤ p.2 then some (divideCeilSigned (p.2 - p.1) stepVal) else none)
          = some (divideCeilSigned (up - lo) st)
      rw [if_neg (by omega : ¬ st < 0), if_neg (by omega : ¬ st = 0)]
      show (if lo ≤ up then some (divideCeilSigned (up - lo) st) else none)
          = some (divideCeilSigned (up - lo) st)
      rw [if_pos hle]
    refine ⟨divideCeilSigned (up - lo) st, hred, ?_, ?_⟩
    · unfold divideCeilSigned
      rw [Int.fdiv_eq_ediv _ (by omega)]
      have hdm := Int.ediv_add_emod (-(up - lo)) st
      have h0 : 0 ≤ -(up - lo) % st := Int.emod_nonneg _ (by omega)
      have h1 : -(up - lo) % st < st := Int.emod_lt_of_pos _ (by omega)
      nlinarith [hdm, h0, h1]
    · unfold divideCeilSigned
      rw [Int.fdiv_eq_ediv _ (by omega)]
      have hdm := Int.ediv_add_emod (-(up - lo)) st
      have h0 : 0 ≤ -(up - lo) % st := Int.emod_nonneg _ (by omega)
      nlinarith [hdm, h0]
  · intro hst hlt
    show (let p := if st < 0 then (up, lo) else (lo, up);
          let stepVal := if st = 0 then (1 : Int) else st;
          if p.1 ≤ p.2 then some (divideCeilSigned (p.2 - p.1) stepVal) else none) = none
    rw [if_neg (by omega : ¬ st < 0), if_neg (by omega : ¬ st = 0)]
    show (if lo ≤ up then some (divideCeilSigned (up - lo) st) else none) = none
    rw [if_neg (by omega)]

/-- Claim C4 witness: the general positive-step case of the amended trip
count theorem, instantiated at lower = 3, upper = 10, step = 2 (the ceiling
of 7 / 2 is 4). -/
theorem tripCount_spec_witness :
    (0 : Int) < 2 ∧ (3 : Int) ≤ 10 ∧
    (∃ r, TritonIntegerRangeAnalysis.maybeGetTripCount ⟨true, 3, 10, 2⟩ = some r ∧
      2 * (r - 1) < 10 - 3 ∧ 10 - 3 ≤ 2 * r) :=
  ⟨by decide, by decide, (tripCount_spec 3 10 2).2.2.2.2.1 (by decide) (by decide)⟩

/-- Claim C5: the claim states that an assume statement whose condition is
not shaped as a comparison, or has no defining operation at all, is ignored
with a non-fatal remark and the analysis never aborts.  The source's
collectAssumptions dereferences the condition's defining operation with no
null check, so an assume condition with no defining operation (a block
argument) is a null-pointer dereference, modelled here as the crash result
none; a condition whose defining operation is a non-comparison is indexed and
later yields no constraint (the graceful path the claim describes). -/
theorem collectAssumptions_blockArgCond_crash :
    TritonIntegerRangeAnalysis.collectAssumptions [0] (fun _ => none) true (fun _ => none)
      = none ∧
    TritonIntegerRangeAnalysis.collectAssumptions [0] (fun _ => some (.other [5])) true
      (fun _ => none) = some [(5, .other [5])] ∧
    maybeGetAssumedRangeSingle (.other [5]) 5 (fun _ => none) 32 = none := by
  refine ⟨rfl, rfl, rfl⟩

/-- Multiplicative fold over a list equals the initial value times the
product of the mapped list. -/
theorem foldl_mul_map (f : Loop → Int) (ls : List Loop) (a : Int) :
    ls.foldl (fun accum l => accum * f l) a = a * (ls.map f).prod := by
  induction ls generalizing a with
  | nil => simp
  | cons x xs ih =>
    simp only [List.foldl_cons, List.map_cons, List.prod_cons]
    rw [ih, mul_assoc]

/-- Claim C9: the total loop trip count is the product, over the loop itself
and every enclosing loop found on the parent chain, of each loop's own trip
count, an unknown trip count contributing the sentinel
kDefaultMaxTripCount + 1 = 1025. -/
theorem getTotalLoopTripCount_eq_prod (loop : Loop) (parents : List (Option Loop)) :
    TritonIntegerRangeAnalysis.getTotalLoopTripCount loop parents =
      ((loop :: parents.filterMap id).map
        (fun l => (TritonIntegerRangeAnalysis.maybeGetTripCount l).getD
          (kDefaultMaxTripCount + 1))).prod := by
  unfold TritonIntegerRangeAnalysis.getTotalLoopTripCount getEnclosingLoops
  rw [foldl_mul_map]
  rw [one_mul]

/-- Claim C2 counterexample: the claim asserts that the widening branch (loop
trip count above kDefaultMaxTripCount) does not increment the per-cell visit
counter even when the join changes the cell.  At recorded trip count 2000 and
an uninitialized cell, the source joins the cell with max-range and the
shared increment after the branch raises the counter from 0 to 1. -/
theorem wideningBranch_increments_counter :
    (visitPairStep true ⟨2000, 0⟩ none none 8).2 = some (ConstantIntRanges.maxRange 8) ∧
    (visitPairStep true ⟨2000, 0⟩ none none 8).1.visits = 1 ∧
    ¬ (visitPairStep true ⟨2000, 0⟩ none none 8).1.visits = 0 := by
  refine ⟨by decide, by decide, by decide⟩

/-- Claim C2 (amended): for a pair attributable to a loop that is not frozen
by the visit guard and whose recorded trip count exceeds kDefaultMaxTripCount,
the target cell is joined directly with the operand's max-range (independently
of the operand's own lattice value), the recorded trip count is unchanged,
and the visit counter is incremented exactly when this join changes the
cell. -/
theorem wideningBranch_spec (st : LoopState) (cell operCell : IntegerValueRange) (w : Nat)
    (hrun : st.visits < st.tripCount) (hbig : kDefaultMaxTripCount < st.tripCount) :
    (visitPairStep true st cell operCell w).2 =
      IntegerValueRange.joinIVR cell (some (ConstantIntRanges.maxRange w)) ∧
    (visitPairStep true st cell operCell w).1.tripCount = st.tripCount ∧
    (visitPairStep true st cell operCell w).1.visits =
      (if IntegerValueRange.joinIVR cell (some (ConstantIntRanges.maxRange w)) ≠ cell
       then st.visits + 1 else st.visits) := by
  unfold visitPairStep latticeJoin
  rw [if_neg (by simp; omega)]
  rw [if_pos ⟨rfl, hbig⟩]
  refine ⟨rfl, ?_, ?_⟩
  · show (if true = true ∧
          decide (IntegerValueRange.joinIVR cell (some (ConstantIntRanges.maxRange w)) ≠ cell)
            = true
        then ({ tripCount := st.tripCount, visits := st.visits + 1 } : LoopState)
        else st).tripCount = st.tripCount
    split
    · rfl
    · rfl
  · show (if true = true ∧
          decide (IntegerValueRange.joinIVR cell (some (ConstantIntRanges.maxRange w)) ≠ cell)
            = true
        then ({ tripCount := st.tripCount, visits := st.visits + 1 } : LoopState)
        else st).visits =
      (if IntegerValueRange.joinIVR cell (some (ConstantIntRanges.maxRange w)) ≠ cell
       then st.visits + 1 else st.visits)
    by_cases hch : IntegerValueRange.joinIVR cell (some (ConstantIntRanges.maxRange w)) ≠ cell
    · rw [if_pos ⟨rfl, decide_eq_true hch⟩, if_pos hch]
    · rw [if_neg (fun hc => hch (of_decide_eq_true hc.2)), if_neg hch]

/-- Claim C2 witness: the amended widening theorem instantiated at trip count
4000, visit count 2, a cell already holding a narrow range, and width 4. -/
theorem wideningBranch_spec_witness :
    ((⟨4000, 2⟩ : LoopState).visits < (⟨4000, 2⟩ : LoopState).tripCount) ∧
    (kDefaultMaxTripCount < (⟨4000, 2⟩ : LoopState).tripCount) ∧
    ((visitPairStep true ⟨4000, 2⟩ (some (ConstantIntRanges.constRange (APInt.ofNat 4 3)))
        none 4).2 =
      IntegerValueRange.joinIVR (some (ConstantIntRanges.constRange (APInt.ofNat 4 3)))
        (some (ConstantIntRanges.maxRange 4)) ∧
    (visitPairStep true ⟨4000, 2⟩ (some (ConstantIntRanges.constRange (APInt.ofNat 4 3)))
        none 4).1.tripCount = 4000 ∧
    (visitPairStep true ⟨4000, 2⟩ (some (ConstantIntRanges.constRange (APInt.ofNat 4 3)))
        none 4).1.visits =
      (if IntegerValueRange.joinIVR (some (ConstantIntRanges.constRange (APInt.ofNat 4 3)))
          (some (ConstantIntRanges.maxRange 4)) ≠
          some (ConstantIntRanges.constRange (APInt.ofNat 4 3))
       then 2 + 1 else 2)) :=
  ⟨by decide, by decide,
   wideningBranch_spec ⟨4000, 2⟩ (some (ConstantIntRanges.constRange (APInt.ofNat 4 3)))
     none 4 (by decide) (by decide)⟩

/-- Claim C7 counterexample: the claim asserts the visit counter never
exceeds the recorded trip-count bound.  Starting from initialization, a first
estimate of 2000 (a loop over [0, 2000) with step 1) triggers the widening
branch, whose join changes the uninitialized cell and raises the counter to
1; a later re-estimate of 0 (a loop over [0, 0)) shrinks the recorded bound
to 0, leaving the counter 1 strictly above the bound 0. -/
theorem loopVisits_exceeds_tripCount :
    (recordTripCount
        (visitPairStep true
          (recordTripCount loopStateInit
            (TritonIntegerRangeAnalysis.getTotalLoopTripCount ⟨true, 0, 2000, 1⟩ []))
          none none 8).1
        (TritonIntegerRangeAnalysis.getTotalLoopTripCount ⟨true, 0, 0, 1⟩ [])).tripCount <
    (recordTripCount
        (visitPairStep true
          (recordTripCount loopStateInit
            (TritonIntegerRangeAnalysis.getTotalLoopTripCount ⟨true, 0, 2000, 1⟩ []))
          none none 8).1
        (TritonIntegerRangeAnalysis.getTotalLoopTripCount ⟨true, 0, 0, 1⟩ [])).visits := by
  decide

/-- Claim C7 (amended): processing one (operand, target-cell) pair preserves
the bound: it performs no update at all once the visit counter has reached
the recorded trip count, never decreases the counter, raises it by at most
one and only when it was below the bound (so the counter stays at or below
the bound whenever it was at or below it), and never changes the recorded
trip count itself; the counter can therefore exceed the bound only when a
re-estimation shrinks the bound below it. -/
theorem visitPairStep_char (st : LoopState) (cell operCell : IntegerValueRange) (w : Nat) :
    (visitPairStep true st cell operCell w).1.tripCount = st.tripCount ∧
    ((visitPairStep true st cell operCell w).1.visits = st.visits ∨
     ((visitPairStep true st cell operCell w).1.visits = st.visits + 1 ∧
      st.visits < st.tripCount)) := by
  unfold visitPairStep latticeJoin
  by_cases hguard : st.tripCount ≤ st.visits
  · rw [if_pos ⟨rfl, hguard⟩]
    exact ⟨rfl, Or.inl rfl⟩
  · rw [if_neg (by simp; omega)]
    dsimp only
    split
    · split
      · exact ⟨rfl, Or.inr ⟨rfl, by omega⟩⟩
      · exact ⟨rfl, Or.inl rfl⟩
    · split
      · exact ⟨rfl, Or.inr ⟨rfl, by omega⟩⟩
      · exact ⟨rfl, Or.inl rfl⟩

theorem loopVisits_guard_spec (st : LoopState) (cell operCell : IntegerValueRange) (w : Nat) :
    (st.tripCount ≤ st.visits → visitPairStep true st cell operCell w = (st, cell)) ∧
    (visitPairStep true st cell operCell w).1.tripCount = st.tripCount ∧
    st.visits ≤ (visitPairStep true st cell operCell w).1.visits ∧
    (visitPairStep true st cell operCell w).1.visits ≤ st.visits + 1 ∧
    (st.visits ≤ st.tripCount →
      (visitPairStep true st cell operCell w).1.visits ≤ st.tripCount) := by
  have hchar := visitPairStep_char st cell operCell w
  refine ⟨?_, hchar.1, ?_, ?_, ?_⟩
  · intro h
    unfold visitPairStep
    rw [if_pos ⟨rfl, h⟩]
  · rcases hchar.2 with h | ⟨h, hlt⟩ <;> omega
  · rcases hchar.2 with h | ⟨h, hlt⟩ <;> omega
  · intro hle
    rcases hchar.2 with h | ⟨h, hlt⟩ <;> omega

/-- Claim C7 witness: the guard part of the amended theorem at a state whose
counter has reached the bound: the pair is skipped entirely. -/
theorem loopVisits_guard_spec_witness :
    ((⟨5, 5⟩ : LoopState).tripCount ≤ (⟨5, 5⟩ : LoopState).visits) ∧
    visitPairStep true ⟨5, 5⟩ (some (ConstantIntRanges.maxRange 4)) none 4 =
      (⟨5, 5⟩, some (ConstantIntRanges.maxRange 4)) :=
  ⟨by decide,
   (loopVisits_guard_spec ⟨5, 5⟩ (some (ConstantIntRanges.maxRange 4)) none 4).1 (by decide)⟩

/-- The source's static-truth test holds exactly when both cells contribute a
range and predicate evaluation is definitely true. -/
theorem cmpIIsStaticallyTrue_iff (pred : CmpIPredicate) (c1 c2 : LatticeCell) :
    cmpIIsStaticallyTrue pred c1 c2 = true ↔
      ∃ r1 r2, collectRange c1 = some r1 ∧ collectRange c2 = some r2 ∧
        evaluatePred pred r1 r2 = some true := by
  unfold cmpIIsStaticallyTrue
  rcases hc1 : collectRange c1 with _ | r1 <;> rcases hc2 : collectRange c2 with _ | r2
  · simp
  · simp
  · simp
  · simp only [Option.some.injEq]
    constructor
    · intro h
      rcases he : evaluatePred pred r1 r2 with _ | b
      · rw [he] at h
        simp at h
      · rw [he] at h
        simp at h
        exact ⟨r1, r2, rfl, rfl, by rw [he, h]⟩
    · rintro ⟨r1a, r2a, h1, h2, h3⟩
      rw [← h1, ← h2] at h3
      rw [h3]
      rfl

/-- Claim C10: the folding rule replaces the comparison result with the
constant true exactly when both operand lattice cells exist, are initialized,
and are not the empty sentinel, and evaluating the predicate over the two
collected ranges is definitely true, and the rewrite machinery accepts the
substitution; in every other situation (evaluation indefinite or definitely
false, either range unknown, replacement refused, or a non-integer/index
result) the operation is left unchanged. -/
theorem foldTrueCmpIOp_spec (pred : CmpIPredicate) (c1 c2 : LatticeCell) (accepted : Bool)
    (r : ConstantIntRanges) :
    (foldTrueCmpIOp true pred c1 c2 accepted = true ↔
      ((∃ r1 r2, collectRange c1 = some r1 ∧ collectRange c2 = some r2 ∧
        evaluatePred pred r1 r2 = some true) ∧ accepted = true)) ∧
    (foldTrueCmpIOp false pred c1 c2 accepted = false) ∧
    (collectRange c1 = some r ↔
      (c1 = LatticeCell.init r ∧ isEmptyInitializedRange r = false)) := by
  refine ⟨?_, ?_, ?_⟩
  · by_cases hs : cmpIIsStaticallyTrue pred c1 c2 = true
    · rw [foldTrueCmpIOp, if_pos ⟨rfl, hs⟩]
      have hex := (cmpIIsStaticallyTrue_iff pred c1 c2).mp hs
      rcases accepted with _ | _
      · simp
      · constructor
        · intro _
          exact ⟨hex, rfl⟩
        · intro _
          rfl
    · rw [foldTrueCmpIOp, if_neg (fun hc => hs hc.2)]
      constructor
      · intro h
        exact absurd h (by simp)
      · rintro ⟨hex, hacc⟩
        exact absurd ((cmpIIsStaticallyTrue_iff pred c1 c2).mpr hex) hs
  · rw [foldTrueCmpIOp, if_neg (fun hc => Bool.false_ne_true hc.1)]
  · cases c1 with
    | missing => simp [collectRange]
    | uninit => simp [collectRange]
    | init r1 =>
      show (if isEmptyInitializedRange r1 = true then none else some r1) = some r ↔
        (LatticeCell.init r1 = LatticeCell.init r ∧ isEmptyInitializedRange r = false)
      by_cases he : isEmptyInitializedRange r1 = true
      · rw [if_pos he]
        constructor
        · intro h
          simp at h
        · rintro ⟨h1, h2⟩
          cases h1
          rw [he] at h2
          simp at h2
      · rw [if_neg he]
        constructor
        · intro h
          cases h
          exact ⟨rfl, by simpa using he⟩
        · rintro ⟨h1, h2⟩
          cases h1
          rfl

theorem APInt.uval_ofInt_small (w : Nat) (k : Int) (h0 : 0 ≤ k) (h1 : k < 2 ^ w) :
    (((APInt.ofInt w k).uval : Nat) : Int) = k := by
  rw [APInt.uval_ofInt]
  exact Int.emod_eq_of_lt h0 h1

/-- Claim C6 counterexample: the claim asserts that apVal + 1 never silently
wraps modulo 2 ^ w.  For the unsigned assumption anchor > 255 at width 8, the
derived lower bound is (255 + 1) mod 2 ^ 8 = 0, not 256: the addition wraps
and the derived interval degenerates to the full range [0, 255]. -/
theorem assumedBound_wraps_counterexample :
    (maybeGetAssumedRangeSingle (.cmp ⟨.ugt, 0, 1⟩) 0
        (fun v => if v = 1 then some 255 else none) 8).map
      (fun r => (((r.umin.uval : Nat) : Int), ((r.umax.uval : Nat) : Int))) = some (0, 255) ∧
    (0 : Int) ≠ 255 + 1 := by
  refine ⟨by decide, by decide⟩

/-- Claim C6 (amended): in assumption-range derivation the bounds apVal + 1
(strict greater-than) and apVal - 1 (strict less-than) are computed in
width-w modular arithmetic.  The computation does not wrap whenever k + 1
(resp. k - 1) is representable at the declared width and signedness, and at
the extreme value of k it wraps to the opposite extreme, the derived interval
degenerating to the full range. -/
theorem assumedBound_wrap_spec (w : Nat) (k : Int) :
    (0 ≤ k → k + 1 < 2 ^ (w + 1) →
      (maybeGetAssumedRangeSingle (.cmp ⟨.ugt, 0, 1⟩) 0
          (fun v => if v = 1 then some k else none) (w + 1)).map
        (fun r => ((r.umin.uval : Nat) : Int)) = some (k + 1)) ∧
    (k = 2 ^ (w + 1) - 1 →
      (maybeGetAssumedRangeSingle (.cmp ⟨.ugt, 0, 1⟩) 0
          (fun v => if v = 1 then some k else none) (w + 1)).map
        (fun r => ((r.umin.uval : Nat) : Int)) = some 0) ∧
    (-(2 ^ w) ≤ k → k + 1 < 2 ^ w →
      (maybeGetAssumedRangeSingle (.cmp ⟨.sgt, 0, 1⟩) 0
          (fun v => if v = 1 then some k else none) (w + 1)).map
        (fun r => r.smin.sval) = some (k + 1)) ∧
    (k = 2 ^ w - 1 →
      (maybeGetAssumedRangeSingle (.cmp ⟨.sgt, 0, 1⟩) 0
          (fun v => if v = 1 then some k else none) (w + 1)).map
        (fun r => r.smin.sval) = some (-(2 ^ w))) ∧
    (1 ≤ k → k < 2 ^ (w + 1) →
      (maybeGetAssumedRangeSingle (.cmp ⟨.ult, 0, 1⟩) 0
          (fun v => if v = 1 then some k else none) (w + 1)).map
        (fun r => ((r.umax.uval : Nat) : Int)) = some (k - 1)) ∧
    (k = 0 →
      (maybeGetAssumedRangeSingle (.cmp ⟨.ult, 0, 1⟩) 0
          (fun v => if v = 1 then some k else none) (w + 1)).map
        (fun r => ((r.umax.uval : Nat) : Int)) = some (2 ^ (w + 1) - 1)) ∧
    (-(2 ^ w) < k → k < 2 ^ w →
      (maybeGetAssumedRangeSingle (.cmp ⟨.slt, 0, 1⟩) 0
          (fun v => if v = 1 then some k else none) (w + 1)).map
        (fun r => r.smax.sval) = some (k - 1)) ∧
    (k = -(2 ^ w) →
      (maybeGetAssumedRangeSingle (.cmp ⟨.slt, 0, 1⟩) 0
          (fun v => if v = 1 then some k else none) (w + 1)).map
        (fun r => r.smax.sval) = some (2 ^ w - 1)) := by
  have hugt : maybeGetAssumedRangeSingle (.cmp ⟨.ugt, 0, 1⟩) 0
      (fun v => if v = 1 then some k else none) (w + 1)
      = some (ConstantIntRanges.range (APInt.ofInt (w + 1) k).add1
          (APInt.getMaxValue (w + 1)) false) := rfl
  have hsgt : maybeGetAssumedRangeSingle (.cmp ⟨.sgt, 0, 1⟩) 0
      (fun v => if v = 1 then some k else none) (w + 1)
      = some (ConstantIntRanges.range (APInt.ofInt (w + 1) k).add1
          (APInt.getSignedMaxValue (w + 1)) true) := rfl
  have hult : maybeGetAssumedRangeSingle (.cmp ⟨.ult, 0, 1⟩) 0
      (fun v => if v = 1 then some k else none) (w + 1)
      = some (ConstantIntRanges.range (APInt.getMinValue (w + 1))
          (APInt.ofInt (w + 1) k).sub1 false) := rfl
  have hslt : maybeGetAssumedRangeSingle (.cmp ⟨.slt, 0, 1⟩) 0
      (fun v => if v = 1 then some k else none) (w + 1)
      = some (ConstantIntRanges.range (APInt.getSignedMinValue (w + 1))
          (APInt.ofInt (w + 1) k).sub1 true) := rfl
  have hpos : (0 : Int) < 2 ^ w := pow_pos (by norm_num) w
  have hpow : ((2 : Int)) ^ (w + 1) = 2 * 2 ^ w := by ring
  refine ⟨?_, ?_, ?_, ?_, ?_, ?_, ?_, ?_⟩
  · intro h0 h1
    rw [hugt, Option.map_some']
    rw [ConstantIntRanges.range_unsigned_umin, APInt.add1_ofInt]
    rw [APInt.uval_ofInt_small (w + 1) (k + 1) (by omega) h1]
  · intro hk
    subst hk
    rw [hugt, Option.map_some']
    rw [ConstantIntRanges.range_unsigned_umin, APInt.add1_ofInt]
    have h2 : (2 ^ (w + 1) - 1 + 1 : Int) = 2 ^ (w + 1) := by ring
    rw [h2, APInt.uval_ofInt, Int.emod_self]
  · intro h0 h1
    rw [hsgt, Option.map_some']
    rw [ConstantIntRanges.range_signed_smin, APInt.add1_ofInt]
    rw [APInt.sval_ofInt w (k + 1) (by omega) h1]
  · intro hk
    subst hk
    rw [hsgt, Option.map_some']
    rw [ConstantIntRanges.range_signed_smin, APInt.add1_ofInt]
    have h2 : (2 ^ w - 1 + 1 : Int) = 2 ^ w := by ring
    rw [h2]
    have hcong : APInt.ofInt (w + 1) (2 ^ w) = APInt.ofInt (w + 1) (-(2 ^ w)) := by
      apply APInt.ofInt_congr
      have h3 := APInt.neg_emod_two_pow w 0
      simp only [add_zero] at h3
      rw [h3]
    rw [hcong, APInt.sval_ofInt w (-(2 ^ w)) (by omega) (by omega)]
  · intro h0 h1
    rw [hult, Option.map_some']
    rw [ConstantIntRanges.range_unsigned_umax, APInt.sub1_ofInt]
    rw [APInt.uval_ofInt_small (w + 1) (k - 1) (by omega) (by omega)]
  · intro hk
    subst hk
    rw [hult, Option.map_some']
    rw [ConstantIntRanges.range_unsigned_umax, APInt.sub1_ofInt]
    have h2 : ((0 : Int) - 1) = -1 := by ring
    rw [h2, ← APInt.getMaxValue_eq_ofInt, APInt.uval_getMaxValue]
  · intro h0 h1
    rw [hslt, Option.map_some']
    rw [ConstantIntRanges.range_signed_smax, APInt.sub1_ofInt]
    rw [APInt.sval_ofInt w (k - 1) (by omega) (by omega)]
  · intro hk
    subst hk
    rw [hslt, Option.map_some']
    rw [ConstantIntRanges.range_signed_smax, APInt.sub1_ofInt]
    have hcong : APInt.ofInt (w + 1) (-(2 ^ w) - 1) = APInt.ofInt (w + 1) (2 ^ w - 1) := by
      apply APInt.ofInt_congr
      have h3 := APInt.neg_emod_two_pow w (-1)
      have h4 : (-(2 ^ w) + -1 : Int) = -(2 ^ w) - 1 := by ring
      have h5 : ((2 : Int) ^ w + -1) = 2 ^ w - 1 := by ring
      rw [h4, h5] at h3
      rw [h3]
    rw [hcong, APInt.sval_ofInt w (2 ^ w - 1) (by omega) (by omega)]

/-- Claim C6 witness: the no-wrap cases of the amended theorem at width 8 and
constant 100: the strict unsigned bound is 101 and the strict signed upper
bound is 99. -/
theorem assumedBound_wrap_spec_witness :
    (0 : Int) ≤ 100 ∧ (100 : Int) + 1 < 2 ^ 8 ∧
    (maybeGetAssumedRangeSingle (.cmp ⟨.ugt, 0, 1⟩) 0
        (fun v => if v = 1 then some 100 else none) 8).map
      (fun r => ((r.umin.uval : Nat) : Int)) = some (100 + 1) :=
  ⟨by decide, by decide, (assumedBound_wrap_spec 7 100).1 (by decide) (by decide)⟩

theorem APInt.uval_getMinValue_int (w : Nat) :
    (((APInt.getMinValue w).uval : Nat) : Int) = 0 := by
  rw [APInt.uval_getMinValue]
  rfl

/-- Claim C8 counterexample: the claim's table gives, for a strict signed
greater-than with the anchor on the left, the interval [k + 1, max].  At
width 8 with k = 127 (the signed maximum) the code's modular k + 1 wraps to
-128, and the derived interval is the full signed range [-128, 127], not
[128, 127]. -/
theorem assumedRange_sgt_extreme_counterexample :
    (maybeGetAssumedRangeSingle (.cmp ⟨.sgt, 0, 1⟩) 0 (constEnv 127) 8).map
      (fun r => (r.smin.sval, r.smax.sval)) = some (-128, 127) ∧
    some ((-128 : Int), (127 : Int)) ≠ some ((127 + 1 : Int), (127 : Int)) := by
  refine ⟨by decide, by decide⟩

/-- Claim C8 (amended): for an assumption P(lhs, rhs) with the constant k on
one side and the anchor on the other, maybeGetAssumedRange derives exactly
the claimed table — eq gives [k, k]; >= gives [k, max] with the anchor on the
left and [min, k] on the right; > gives [k + 1, max] and [min, k - 1]; <=
gives [min, k] and [k, max]; < gives [min, k - 1] and [k + 1, max] — where
min/max are the unsigned extremes of the width for unsigned predicate
variants and the signed extremes for signed variants, with the proviso that
the strict bounds k + 1 and k - 1 are computed modulo 2 ^ w and therefore
require k + 1 (resp. k - 1) to be representable (at the extreme k they wrap,
degenerating the interval to the full range); and when the non-anchor side is
not a constant, no range is derived. -/
theorem assumedRange_table_spec (w : Nat) (k : Int) :
    (-(2 ^ w) ≤ k → k < 2 ^ w →
      ((maybeGetAssumedRangeSingle (.cmp ⟨.eq, 0, 1⟩) 0 (constEnv k) (w + 1)).map
        (fun r => (r.smin.sval, r.smax.sval)) = some (k, k)) ∧
      ((maybeGetAssumedRangeSingle (.cmp ⟨.sge, 0, 1⟩) 0 (constEnv k) (w + 1)).map
        (fun r => (r.smin.sval, r.smax.sval)) = some (k, 2 ^ w - 1)) ∧
      ((maybeGetAssumedRangeSingle (.cmp ⟨.sge, 1, 0⟩) 0 (constEnv k) (w + 1)).map
        (fun r => (r.smin.sval, r.smax.sval)) = some (-(2 ^ w), k)) ∧
      ((maybeGetAssumedRangeSingle (.cmp ⟨.sle, 0, 1⟩) 0 (constEnv k) (w + 1)).map
        (fun r => (r.smin.sval, r.smax.sval)) = some (-(2 ^ w), k)) ∧
      ((maybeGetAssumedRangeSingle (.cmp ⟨.sle, 1, 0⟩) 0 (constEnv k) (w + 1)).map
        (fun r => (r.smin.sval, r.smax.sval)) = some (k, 2 ^ w - 1)) ∧
      (k + 1 < 2 ^ w →
        ((maybeGetAssumedRangeSingle (.cmp ⟨.sgt, 0, 1⟩) 0 (constEnv k) (w + 1)).map
          (fun r => (r.smin.sval, r.smax.sval)) = some (k + 1, 2 ^ w - 1)) ∧
        ((maybeGetAssumedRangeSingle (.cmp ⟨.slt, 1, 0⟩) 0 (constEnv k) (w + 1)).map
          (fun r => (r.smin.sval, r.smax.sval)) = some (k + 1, 2 ^ w - 1))) ∧
      (-(2 ^ w) < k →
        ((maybeGetAssumedRangeSingle (.cmp ⟨.sgt, 1, 0⟩) 0 (constEnv k) (w + 1)).map
          (fun r => (r.smin.sval, r.smax.sval)) = some (-(2 ^ w), k - 1)) ∧
        ((maybeGetAssumedRangeSingle (.cmp ⟨.slt, 0, 1⟩) 0 (constEnv k) (w + 1)).map
          (fun r => (r.smin.sval, r.smax.sval)) = some (-(2 ^ w), k - 1)))) ∧
    (0 ≤ k → k < 2 ^ (w + 1) →
      ((maybeGetAssumedRangeSingle (.cmp ⟨.uge, 0, 1⟩) 0 (constEnv k) (w + 1)).map
        (fun r => ((r.umin.uval : Int), (r.umax.uval : Int))) = some (k, 2 ^ (w + 1) - 1)) ∧
      ((maybeGetAssumedRangeSingle (.cmp ⟨.uge, 1, 0⟩) 0 (constEnv k) (w + 1)).map
        (fun r => ((r.umin.uval : Int), (r.umax.uval : Int))) = some (0, k)) ∧
      ((maybeGetAssumedRangeSingle (.cmp ⟨.ule, 0, 1⟩) 0 (constEnv k) (w + 1)).map
        (fun r => ((r.umin.uval : Int), (r.umax.uval : Int))) = some (0, k)) ∧
      ((maybeGetAssumedRangeSingle (.cmp ⟨.ule, 1, 0⟩) 0 (constEnv k) (w + 1)).map
        (fun r => ((r.umin.uval : Int), (r.umax.uval : Int))) = some (k, 2 ^ (w + 1) - 1)) ∧
      (k + 1 < 2 ^ (w + 1) →
        ((maybeGetAssumedRangeSingle (.cmp ⟨.ugt, 0, 1⟩) 0 (constEnv k) (w + 1)).map
          (fun r => ((r.umin.uval : Int), (r.umax.uval : Int)))
          = some (k + 1, 2 ^ (w + 1) - 1)) ∧
        ((maybeGetAssumedRangeSingle (.cmp ⟨.ult, 1, 0⟩) 0 (constEnv k) (w + 1)).map
          (fun r => ((r.umin.uval : Int), (r.umax.uval : Int)))
          = some (k + 1, 2 ^ (w + 1) - 1))) ∧
      (1 ≤ k →
        ((maybeGetAssumedRangeSingle (.cmp ⟨.ugt, 1, 0⟩) 0 (constEnv k) (w + 1)).map
          (fun r => ((r.umin.uval : Int), (r.umax.uval : Int))) = some (0, k - 1)) ∧
        ((maybeGetAssumedRangeSingle (.cmp ⟨.ult, 0, 1⟩) 0 (constEnv k) (w + 1)).map
          (fun r => ((r.umin.uval : Int), (r.umax.uval : Int))) = some (0, k - 1)))) ∧
    (maybeGetAssumedRangeSingle (.cmp ⟨.sge, 0, 3⟩) 0 (constEnv k) (w + 1) = none) ∧
    (maybeGetAssumedRangeSingle (.cmp ⟨.ult, 3, 0⟩) 0 (constEnv k) (w + 1) = none) := by
  have hpos : (0 : Int) < 2 ^ w := pow_pos (by norm_num) w
  have hpow : ((2 : Int)) ^ (w + 1) = 2 * 2 ^ w := by ring
  refine ⟨?_, ?_, rfl, rfl⟩
  · intro hs0 hs1
    refine ⟨?_, ?_, ?_, ?_, ?_, ?_, ?_⟩
    · rw [show maybeGetAssumedRangeSingle (.cmp ⟨.eq, 0, 1⟩) 0 (constEnv k) (w + 1)
          = some (ConstantIntRanges.constRange (APInt.ofInt (w + 1) k)) from rfl,
        Option.map_some']
      show some (((APInt.ofInt (w + 1) k).sval), ((APInt.ofInt (w + 1) k).sval)) = some (k, k)
      rw [APInt.sval_ofInt w k hs0 hs1]
    · rw [show maybeGetAssumedRangeSingle (.cmp ⟨.sge, 0, 1⟩) 0 (constEnv k) (w + 1)
          = some (ConstantIntRanges.range (APInt.ofInt (w + 1) k)
              (APInt.getSignedMaxValue (w + 1)) true) from rfl, Option.map_some']
      rw [ConstantIntRanges.range_signed_smin, ConstantIntRanges.range_signed_smax]
      rw [APInt.sval_ofInt w k hs0 hs1, APInt.sval_getSignedMaxValue]
    · rw [show maybeGetAssumedRangeSingle (.cmp ⟨.sge, 1, 0⟩) 0 (constEnv k) (w + 1)
          = some (ConstantIntRanges.range (APInt.getSignedMinValue (w + 1))
              (APInt.ofInt (w + 1) k) true) from rfl, Option.map_some']
      rw [ConstantIntRanges.range_signed_smin, ConstantIntRanges.range_signed_smax]
      rw [APInt.sval_ofInt w k hs0 hs1, APInt.sval_getSignedMinValue]
    · rw [show maybeGetAssumedRangeSingle (.cmp ⟨.sle, 0, 1⟩) 0 (constEnv k) (w + 1)
          = some (ConstantIntRanges.range (APInt.getSignedMinValue (w + 1))
              (APInt.ofInt (w + 1) k) true) from rfl, Option.map_some']
      rw [ConstantIntRanges.range_signed_smin, ConstantIntRanges.range_signed_smax]
      rw [APInt.sval_ofInt w k hs0 hs1, APInt.sval_getSignedMinValue]
    · rw [show maybeGetAssumedRangeSingle (.cmp ⟨.sle, 1, 0⟩) 0 (constEnv k) (w + 1)
          = some (ConstantIntRanges.range (APInt.ofInt (w + 1) k)
              (APInt.getSignedMaxValue (w + 1)) true) from rfl, Option.map_some']
      rw [ConstantIntRanges.range_signed_smin, ConstantIntRanges.range_signed_smax]
      rw [APInt.sval_ofInt w k hs0 hs1, APInt.sval_getSignedMaxValue]
    · intro hs2
      constructor
      · rw [show maybeGetAssumedRangeSingle (.cmp ⟨.sgt, 0, 1⟩) 0 (constEnv k) (w + 1)
            = some (ConstantIntRanges.range (APInt.ofInt (w + 1) k).add1
                (APInt.getSignedMaxValue (w + 1)) true) from rfl, Option.map_some']
        rw [ConstantIntRanges.range_signed_smin, ConstantIntRanges.range_signed_smax]
        rw [APInt.add1_ofInt, APInt.sval_ofInt w (k + 1) (by omega) hs2,
          APInt.sval_getSignedMaxValue]
      · rw [show maybeGetAssumedRangeSingle (.cmp ⟨.slt, 1, 0⟩) 0 (constEnv k) (w + 1)
            = some (ConstantIntRanges.range (APInt.ofInt (w + 1) k).add1
                (APInt.getSignedMaxValue (w + 1)) true) from rfl, Option.map_some']
        rw [ConstantIntRanges.range_signed_smin, ConstantIntRanges.range_signed_smax]
        rw [APInt.add1_ofInt, APInt.sval_ofInt w (k + 1) (by omega) hs2,
          APInt.sval_getSignedMaxValue]
    · intro hs2
      constructor
      · rw [show maybeGetAssumedRangeSingle (.cmp ⟨.sgt, 1, 0⟩) 0 (constEnv k) (w + 1)
            = some (ConstantIntRanges.range (APInt.getSignedMinValue (w + 1))
                (APInt.ofInt (w + 1) k).sub1 true) from rfl, Option.map_some']
        rw [ConstantIntRanges.range_signed_smin, ConstantIntRanges.range_signed_smax]
        rw [APInt.sub1_ofInt, APInt.sval_ofInt w (k - 1) (by omega) (by omega),
          APInt.sval_getSignedMinValue]
      · rw [show maybeGetAssumedRangeSingle (.cmp ⟨.slt, 0, 1⟩) 0 (constEnv k) (w + 1)
            = some (ConstantIntRanges.range (APInt.getSignedMinValue (w + 1))
                (APInt.ofInt (w + 1) k).sub1 true) from rfl, Option.map_some']
        rw [ConstantIntRanges.range_signed_smin, ConstantIntRanges.range_signed_smax]
        rw [APInt.sub1_ofInt, APInt.sval_ofInt w (k - 1) (by omega) (by omega),
          APInt.sval_getSignedMinValue]
  · intro hu0 hu1
    refine ⟨?_, ?_, ?_, ?_, ?_, ?_⟩
    · rw [show maybeGetAssumedRangeSingle (.cmp ⟨.uge, 0, 1⟩) 0 (constEnv k) (w + 1)
          = some (ConstantIntRanges.range (APInt.ofInt (w + 1) k)
              (APInt.getMaxValue (w + 1)) false) from rfl, Option.map_some']
      rw [ConstantIntRanges.range_unsigned_umin, ConstantIntRanges.range_unsigned_umax]
      rw [APInt.uval_ofInt_small (w + 1) k hu0 hu1, APInt.uval_getMaxValue]
    · rw [show maybeGetAssumedRangeSingle (.cmp ⟨.uge, 1, 0⟩) 0 (constEnv k) (w + 1)
          = some (ConstantIntRanges.range (APInt.getMinValue (w + 1))
              (APInt.ofInt (w + 1) k) false) from rfl, Option.map_some']
      rw [ConstantIntRanges.range_unsigned_umin, ConstantIntRanges.range_unsigned_umax]
      rw [APInt.uval_ofInt_small (w + 1) k hu0 hu1, APInt.uval_getMinValue_int]
    · rw [show maybeGetAssumedRangeSingle (.cmp ⟨.ule, 0, 1⟩) 0 (constEnv k) (w + 1)
          = some (ConstantIntRanges.range (APInt.getMinValue (w + 1))
              (APInt.ofInt (w + 1) k) false) from rfl, Option.map_some']
      rw [ConstantIntRanges.range_unsigned_umin, ConstantIntRanges.range_unsigned_umax]
      rw [APInt.uval_ofInt_small (w + 1) k hu0 hu1, APInt.uval_getMinValue_int]
    · rw [show maybeGetAssumedRangeSingle (.cmp ⟨.ule, 1, 0⟩) 0 (constEnv k) (w + 1)
          = some (ConstantIntRanges.range (APInt.ofInt (w + 1) k)
              (APInt.getMaxValue (w + 1)) false) from rfl, Option.map_some']
      rw [ConstantIntRanges.range_unsigned_umin, ConstantIntRanges.range_unsigned_umax]
      rw [APInt.uval_ofInt_small (w + 1) k hu0 hu1, APInt.uval_getMaxValue]
    · intro hu2
      constructor
      · rw [show maybeGetAssumedRangeSingle (.cmp ⟨.ugt, 0, 1⟩) 0 (constEnv k) (w + 1)
            = some (ConstantIntRanges.range (APInt.ofInt (w + 1) k).add1
                (APInt.getMaxValue (w + 1)) false) from rfl, Option.map_some']
        rw [ConstantIntRanges.range_unsigned_umin, ConstantIntRanges.range_unsigned_umax]
        rw [APInt.add1_ofInt, APInt.uval_ofInt_small (w + 1) (k + 1) (by omega) hu2,
          APInt.uval_getMaxValue]
      · rw [show maybeGetAssumedRangeSingle (.cmp ⟨.ult, 1, 0⟩) 0 (constEnv k) (w + 1)
            = some (ConstantIntRanges.range (APInt.ofInt (w + 1) k).add1
                (APInt.getMaxValue (w + 1)) false) from rfl, Option.map_some']
        rw [ConstantIntRanges.range_unsigned_umin, ConstantIntRanges.range_unsigned_umax]
        rw [APInt.add1_ofInt, APInt.uval_ofInt_small (w + 1) (k + 1) (by omega) hu2,
          APInt.uval_getMaxValue]
    · intro hu2
      constructor
      · rw [show maybeGetAssumedRangeSingle (.cmp ⟨.ugt, 1, 0⟩) 0 (constEnv k) (w + 1)
            = some (ConstantIntRanges.range (APInt.getMinValue (w + 1))
                (APInt.ofInt (w + 1) k).sub1 false) from rfl, Option.map_some']
        rw [ConstantIntRanges.range_unsigned_umin, ConstantIntRanges.range_unsigned_umax]
        rw [APInt.sub1_ofInt, APInt.uval_ofInt_small (w + 1) (k - 1) (by omega) (by omega),
          APInt.uval_getMinValue_int]
      · rw [show maybeGetAssumedRangeSingle (.cmp ⟨.ult, 0, 1⟩) 0 (constEnv k) (w + 1)
            = some (ConstantIntRanges.range (APInt.getMinValue (w + 1))
                (APInt.ofInt (w + 1) k).sub1 false) from rfl, Option.map_some']
        rw [ConstantIntRanges.range_unsigned_umin, ConstantIntRanges.range_unsigned_umax]
        rw [APInt.sub1_ofInt, APInt.uval_ofInt_small (w + 1) (k - 1) (by omega) (by omega),
          APInt.uval_getMinValue_int]

/-- Claim C8 witness: the amended table at width 8 and constant 5: the signed
greater-or-equal assumption anchored on the left derives [5, 127]. -/
theorem assumedRange_table_spec_witness :
    -(2 ^ 7 : Int) ≤ 5 ∧ (5 : Int) < 2 ^ 7 ∧
    (maybeGetAssumedRangeSingle (.cmp ⟨.sge, 0, 1⟩) 0 (constEnv 5) 8).map
      (fun r => (r.smin.sval, r.smax.sval)) = some (5, 2 ^ 7 - 1) :=
  ⟨by decide, by decide, ((assumedRange_table_spec 7 5).1 (by decide) (by decide)).2.1⟩

theorem APInt.uval_getSignedMaxValue_int (w : Nat) :
    (((APInt.getSignedMaxValue (w + 1)).uval : Nat) : Int) = 2 ^ w - 1 := by
  have hpos : (0 : Int) < 2 ^ w := pow_pos (by norm_num) w
  have hpow : ((2 : Int)) ^ (w + 1) = 2 * 2 ^ w := by ring
  rw [APInt.getSignedMaxValue_eq_ofInt]
  exact APInt.uval_ofInt_small (w + 1) _ (by omega) (by omega)

theorem APInt.uval_getSignedMinValue_int (w : Nat) :
    (((APInt.getSignedMinValue (w + 1)).uval : Nat) : Int) = 2 ^ w := by
  have hpos : (0 : Int) < 2 ^ w := pow_pos (by norm_num) w
  have hpow : ((2 : Int)) ^ (w + 1) = 2 * 2 ^ w := by ring
  rw [APInt.getSignedMinValue_eq_ofInt, APInt.uval_ofInt]
  have h3 := APInt.neg_emod_two_pow w 0
  simp only [add_zero] at h3
  rw [h3]
  exact Int.emod_eq_of_lt (by omega) (by omega)

/-- Claim C3 counterexample: the claim asserts that when the combined
intersection of several assumptions on one anchor becomes empty, the returned
range is max-range.  With the contradictory assumptions x >= 5 and x <= 3 at
width 8, the member maybeGetAssumedRange keeps the intersection result and
returns the width-zero empty sentinel, not max-range. -/
theorem assumedRange_contradiction_counterexample :
    TritonIntegerRangeAnalysis.maybeGetAssumedRange
      [.cmp ⟨.sge, 0, 1⟩, .cmp ⟨.sle, 0, 2⟩] 0
      (fun v => if v = 1 then some 5 else if v = 2 then some 3 else none) 8
      = some ConstantIntRanges.empty ∧
    some ConstantIntRanges.empty ≠ some (ConstantIntRanges.maxRange 8) := by
  refine ⟨by decide, by decide⟩

/-- Claim C3 (amended): multiple assumptions on one anchor are combined by
repeated intersection starting from the max-range for the anchor's width, and
the analysis does not fail — the member maybeGetAssumedRange always returns a
range for a nonempty assumption set; but an intersection that becomes empty
is kept, so a contradictory pair of bounds (anchor >= k1 and anchor <= k2
with 0 <= k2 < k1 below the signed maximum) returns the width-zero empty
sentinel — which is not the max-range — rather than falling back to
max-range. -/
theorem assumedRange_intersection_spec (assumptions : List CondOp) (anchor : SSAValue)
    (constVal : SSAValue → Option Int) (width w : Nat) (k1 k2 : Int) :
    (assumptions ≠ [] →
      (TritonIntegerRangeAnalysis.maybeGetAssumedRange assumptions anchor
        constVal width).isSome = true) ∧
    (0 ≤ k2 → k2 < k1 → k1 < 2 ^ w →
      TritonIntegerRangeAnalysis.maybeGetAssumedRange
        [.cmp ⟨.sge, 0, 1⟩, .cmp ⟨.sle, 0, 2⟩] 0
        (fun v => if v = 1 then some k1 else if v = 2 then some k2 else none) (w + 1)
        = some ConstantIntRanges.empty) ∧
    ConstantIntRanges.empty ≠ ConstantIntRanges.maxRange (w + 1) := by
  refine ⟨?_, ?_, ?_⟩
  · intro h
    rw [TritonIntegerRangeAnalysis.maybeGetAssumedRange]
    rw [if_neg (by simpa using h)]
    rfl
  · intro h0 h1 h2
    have hpos : (0 : Int) < 2 ^ w := pow_pos (by norm_num) w
    have hpow : ((2 : Int)) ^ (w + 1) = 2 * 2 ^ w := by ring
    have hsv1 : (APInt.ofInt (w + 1) k1).sval = k1 :=
      APInt.sval_ofInt w k1 (by omega) (by omega)
    have hsv2 : (APInt.ofInt (w + 1) k2).sval = k2 :=
      APInt.sval_ofInt w k2 (by omega) (by omega)
    have huv1 : (((APInt.ofInt (w + 1) k1).uval : Nat) : Int) = k1 :=
      APInt.uval_ofInt_small (w + 1) k1 (by omega) (by omega)
    have huv2 : (((APInt.ofInt (w + 1) k2).uval : Nat) : Int) = k2 :=
      APInt.uval_ofInt_small (w + 1) k2 (by omega) (by omega)
    have hsvmax := APInt.sval_getSignedMaxValue w
    have hsvmin := APInt.sval_getSignedMinValue w
    have huvmax := APInt.uval_getMaxValue (w + 1)
    have huvmin := APInt.uval_getMinValue_int (w + 1)
    have huvsmax := APInt.uval_getSignedMaxValue_int w
    have huvsmin := APInt.uval_getSignedMinValue_int w
    have hcond1 : (APInt.ofInt (w + 1) k1).uval ≤ (APInt.getSignedMaxValue (w + 1)).uval := by
      omega
    have hr1 : ConstantIntRanges.range (APInt.ofInt (w + 1) k1)
        (APInt.getSignedMaxValue (w + 1)) true
        = ⟨APInt.ofInt (w + 1) k1, APInt.getSignedMaxValue (w + 1),
           APInt.ofInt (w + 1) k1, APInt.getSignedMaxValue (w + 1)⟩ := by
      rw [ConstantIntRanges.range, if_pos rfl, ConstantIntRanges.fromSigned]
      rw [if_pos (show (0 ≤ (APInt.ofInt (w + 1) k1).sval)
          = (0 ≤ (APInt.getSignedMaxValue (w + 1)).sval) from by
        rw [hsv1, hsvmax, eq_iff_iff]
        constructor <;> intro <;> omega)]
      rw [if_pos hcond1, if_pos hcond1]
    have hr2 : ConstantIntRanges.range (APInt.getSignedMinValue (w + 1))
        (APInt.ofInt (w + 1) k2) true
        = ⟨APInt.getMinValue (w + 1), APInt.getMaxValue (w + 1),
           APInt.getSignedMinValue (w + 1), APInt.ofInt (w + 1) k2⟩ := by
      rw [ConstantIntRanges.range, if_pos rfl, ConstantIntRanges.fromSigned]
      rw [if_neg (show ¬ ((0 ≤ (APInt.getSignedMinValue (w + 1)).sval)
          = (0 ≤ (APInt.ofInt (w + 1) k2).sval)) from by
        rw [hsvmin, hsv2, eq_iff_iff]
        intro hiff
        have hcontra := hiff.mpr h0
        omega)]
      rfl
    have hone1 : maybeGetAssumedRangeSingle (.cmp ⟨.sge, 0, 1⟩) 0
        (fun v => if v = 1 then some k1 else if v = 2 then some k2 else none) (w + 1)
        = some (ConstantIntRanges.range (APInt.ofInt (w + 1) k1)
            (APInt.getSignedMaxValue (w + 1)) true) := rfl
    have hone2 : maybeGetAssumedRangeSingle (.cmp ⟨.sle, 0, 2⟩) 0
        (fun v => if v = 1 then some k1 else if v = 2 then some k2 else none) (w + 1)
        = some (ConstantIntRanges.range (APInt.getSignedMinValue (w + 1))
            (APInt.ofInt (w + 1) k2) true) := rfl
    rw [TritonIntegerRangeAnalysis.maybeGetAssumedRange, if_neg (by decide)]
    simp only [List.foldl_cons, List.foldl_nil]
    rw [hone1, hone2]
    show some (((ConstantIntRanges.maxRange (w + 1)).intersection
        (ConstantIntRanges.range (APInt.ofInt (w + 1) k1)
          (APInt.getSignedMaxValue (w + 1)) true)).intersection
        (ConstantIntRanges.range (APInt.getSignedMinValue (w + 1))
          (APInt.ofInt (w + 1) k2) true))
      = some ConstantIntRanges.empty
    rw [hr1, hr2]
    have hstep1 : (ConstantIntRanges.maxRange (w + 1)).intersection
        ⟨APInt.ofInt (w + 1) k1, APInt.getSignedMaxValue (w + 1),
         APInt.ofInt (w + 1) k1, APInt.getSignedMaxValue (w + 1)⟩
        = ⟨APInt.ofInt (w + 1) k1, APInt.getSignedMaxValue (w + 1),
           APInt.ofInt (w + 1) k1, APInt.getSignedMaxValue (w + 1)⟩ := by
      simp only [ConstantIntRanges.intersection, ConstantIntRanges.maxRange]
      rw [if_neg (show ¬ ((APInt.ofInt (w + 1) k1).uval < (APInt.getMinValue (w + 1)).uval)
        from by omega)]
      rw [if_neg (show ¬ ((APInt.getMaxValue (w + 1)).uval
          < (APInt.getSignedMaxValue (w + 1)).uval) from by omega)]
      rw [if_neg (show ¬ ((APInt.ofInt (w + 1) k1).sval
          < (APInt.getSignedMinValue (w + 1)).sval) from by omega)]
      rw [if_neg (show ¬ ((APInt.getSignedMaxValue (w + 1)).sval
          < (APInt.getSignedMaxValue (w + 1)).sval) from by omega)]
      rw [if_pos (show (APInt.ofInt (w + 1) k1).uval ≤ (APInt.getSignedMaxValue (w + 1)).uval ∧
          (APInt.ofInt (w + 1) k1).sval ≤ (APInt.getSignedMaxValue (w + 1)).sval from
        ⟨by omega, by omega⟩)]
    rw [hstep1]
    have hstep2 : ConstantIntRanges.intersection
        ⟨APInt.ofInt (w + 1) k1, APInt.getSignedMaxValue (w + 1),
         APInt.ofInt (w + 1) k1, APInt.getSignedMaxValue (w + 1)⟩
        ⟨APInt.getMinValue (w + 1), APInt.getMaxValue (w + 1),
         APInt.getSignedMinValue (w + 1), APInt.ofInt (w + 1) k2⟩
        = ConstantIntRanges.empty := by
      simp only [ConstantIntRanges.intersection]
      rw [if_pos (show (APInt.getMinValue (w + 1)).uval < (APInt.ofInt (w + 1) k1).uval
        from by omega)]
      rw [if_pos (show (APInt.getSignedMaxValue (w + 1)).uval < (APInt.getMaxValue (w + 1)).uval
        from by omega)]
      rw [if_pos (show (APInt.getSignedMinValue (w + 1)).sval < (APInt.ofInt (w + 1) k1).sval
        from by omega)]
      rw [if_neg (show ¬ ((APInt.getSignedMaxValue (w + 1)).sval
          < (APInt.ofInt (w + 1) k2).sval) from by omega)]
      rw [if_neg (show ¬ ((APInt.ofInt (w + 1) k1).uval ≤ (APInt.getSignedMaxValue (w + 1)).uval ∧
          (APInt.ofInt (w + 1) k1).sval ≤ (APInt.ofInt (w + 1) k2).sval) from by
        intro hc
        omega)]
    rw [hstep2]
  · intro h
    have hw : ConstantIntRanges.empty.umin.width
        = (ConstantIntRanges.maxRange (w + 1)).umin.width := by rw [h]
    simp only [ConstantIntRanges.empty, ConstantIntRanges.maxRange,
      APInt.getMinValue] at hw
    exact absurd hw (by omega)

/-- Claim C3 witness: the amended theorem at width 8 with the contradictory
assumptions x >= 5 and x <= 3, and the always-some part on a one-assumption
set. -/
theorem assumedRange_intersection_spec_witness :
    ([CondOp.cmp ⟨.sge, 0, 1⟩] ≠ [] ∧
      (TritonIntegerRangeAnalysis.maybeGetAssumedRange [.cmp ⟨.sge, 0, 1⟩] 0
        (constEnv 5) 8).isSome = true) ∧
    ((0 : Int) ≤ 3 ∧ (3 : Int) < 5 ∧ (5 : Int) < 2 ^ 7 ∧
      TritonIntegerRangeAnalysis.maybeGetAssumedRange
        [.cmp ⟨.sge, 0, 1⟩, .cmp ⟨.sle, 0, 2⟩] 0
        (fun v => if v = 1 then some 5 else if v = 2 then some 3 else none) 8
        = some ConstantIntRanges.empty) :=
  ⟨⟨by decide,
    (assumedRange_intersection_spec [.cmp ⟨.sge, 0, 1⟩] 0 (constEnv 5) 8 7 5 3).1
      (by decide)⟩,
   by decide, by decide, by decide,
   (assumedRange_intersection_spec [.cmp ⟨.sge, 0, 1⟩] 0 (constEnv 5) 8 7 5 3).2.1
     (by decide) (by decide) (by decide)⟩

/-- Claim C1 witness: the histogram inference evaluated at storage bit width
32: signed bounds 0 and -1, the latter differing from 2 ^ 31 - 1. -/
theorem histogramRange_signedMax_isNegOne_witness :
    (inferResultRangesMaxNonNegSigned 32).smin.sval = 0 ∧
    (inferResultRangesMaxNonNegSigned 32).smax.sval = -1 ∧
    (inferResultRangesMaxNonNegSigned 32).smax.sval ≠ 2 ^ 31 - 1 :=
  histogramRange_signedMax_isNegOne 31

/-- Claim C10 witness: the folding equivalence applied at i32 ranges
[0, 1023] < [1024, 1024] with the rewrite accepted: the comparison is
replaced. -/
theorem foldTrueCmpIOp_spec_witness :
    foldTrueCmpIOp true .slt
      (.init (ConstantIntRanges.fromSigned (APInt.ofInt 32 0) (APInt.ofInt 32 1023)))
      (.init (ConstantIntRanges.constRange (APInt.ofInt 32 1024))) true = true :=
  (foldTrueCmpIOp_spec .slt
      (.init (ConstantIntRanges.fromSigned (APInt.ofInt 32 0) (APInt.ofInt 32 1023)))
      (.init (ConstantIntRanges.constRange (APInt.ofInt 32 1024))) true
      (ConstantIntRanges.constRange (APInt.ofInt 32 1024))).1.mpr
    ⟨⟨ConstantIntRanges.fromSigned (APInt.ofInt 32 0) (APInt.ofInt 32 1023),
      ConstantIntRanges.constRange (APInt.ofInt 32 1024),
      by decide, by decide, by decide⟩, rfl⟩
